import Mathlib

set_option maxRecDepth 4000
set_option linter.unreachableTactic false
set_option linter.unnecessarySeqFocus false
set_option linter.unusedTactic false
set_option linter.unnecessarySimpa false

/-
  Shallow embedding of the variant-chess rule-modifier core of
  INDAPlus21/murnion-chess-gui (src/main.rs).  The base legal-chess engine
  (the eliasfl_chess crate) is an external collaborator; it is modelled from
  the interface in section 6 of the spec as an explicit parameter.  All other
  definitions are translated from src/main.rs.
-/

inductive Colour
  | White
  | Black
deriving DecidableEq, Repr

def Colour.other : Colour → Colour
  | .White => .Black
  | .Black => .White

inductive PieceKind
  | King
  | Queen
  | Rook
  | Bishop
  | Knight
  | Pawn
deriving DecidableEq, Repr

/-- Rust PieceType: a piece kind carrying its colour in the constructor. -/
structure Piece where
  kind : PieceKind
  colour : Colour
deriving DecidableEq, Repr

/-- Rust trait method type_as_colour (src/main.rs lines 797-806). -/
def Piece.typeAsColour (p : Piece) (c : Colour) : Piece :=
  ⟨p.kind, c⟩

/-- Rust enum Mods (src/main.rs lines 42-50). -/
inductive Mods
  | CrazyHouse (p : Piece)
  | Atomic (p : Piece)
  | Sniper (p : Piece)
  | KingOfTheHill
  | Extinction (p : Piece)
  | TripleCheck (p : Piece)
deriving DecidableEq, Repr

abbrev Pos := Nat × Nat

/-- The board mapping Position to Piece, embedded as an association list. -/
abbrev Board := List (Pos × Piece)

def lookupB : Board → Pos → Option Piece
  | [], _ => none
  | e :: t, q => if e.1 = q then some e.2 else lookupB t q

def removeB : Board → Pos → Board
  | [], _ => []
  | e :: t, q => if e.1 = q then removeB t q else e :: removeB t q

/-- HashMap insert: replaces any existing entry at that key. -/
def insertB (b : Board) (q : Pos) (p : Piece) : Board :=
  (q, p) :: removeB b q

def memB (b : Board) (q : Pos) : Bool :=
  (lookupB b q).isSome

def memPos (l : List Pos) (q : Pos) : Bool :=
  l.any fun x => decide (x = q)

def memMod (s : List Mods) (m : Mods) : Bool :=
  s.any fun x => decide (x = m)

/-- HashSet insert for the per-player modifier sets. -/
def insertMod (s : List Mods) (m : Mods) : List Mods :=
  if memMod s m then s else s ++ [m]

inductive ScreenState
  | GameScreen
  | ScoreScreen
  | ModScreen
deriving DecidableEq, Repr

/-- Rust struct AppState (src/main.rs lines 86-100), sprites omitted
    (pure rendering).  The Game value of the engine crate is split into the
    board mapping and the active colour. -/
structure AppState where
  board : Board
  activeColor : Colour
  selectedPos : Pos
  highlightedPos : List Pos
  takenBlackPieces : List Piece
  takenWhitePieces : List Piece
  whiteMods : List Mods
  blackMods : List Mods
  tripleCheckCounter : Nat × Nat
  wins : Nat × Nat
  screen : ScreenState
  curWinner : Option Colour
  randomMods : List Mods
deriving DecidableEq, Repr

/-- Rust AppState::end_game (src/main.rs lines 151-154). -/
def endGame (st : AppState) (w : Option Colour) : AppState :=
  { st with screen := ScreenState.ScoreScreen, curWinner := w }

/-- Modelled from the spec: the interface of the external base chess engine
    (spec section 6): move acceptance, check query, the reachable squares of a
    piece, and the legal-destination query. -/
structure Engine where
  ok : Board → Colour → Pos → Pos → Bool
  isCheck : Board → Bool
  validDests : Piece → Pos → List Pos
  possibleMoves : Board → Pos → List Pos

/-- Modelled from the spec: the base engine make_move (spec section 6).  On
    success the piece at src is moved to dst (capturing any occupant) and the
    active colour passes to the opponent; on failure nothing changes. -/
def makeMoveE (eng : Engine) (b : Board) (ac : Colour) (src dst : Pos) :
    Option (Board × Colour) :=
  match lookupB b src with
  | none => none
  | some p =>
      if p.colour = ac ∧ eng.ok b ac src dst = true then
        some (insertB (removeB b src) dst p, ac.other)
      else
        none

/-- Modelled from the spec: the initial position produced by the engine
    Game::new (a fresh round starts from the standard chess setup, White to
    move). -/
def backRank (c : Colour) (r : Nat) : Board :=
  [((1, r), ⟨.Rook, c⟩), ((2, r), ⟨.Knight, c⟩), ((3, r), ⟨.Bishop, c⟩),
   ((4, r), ⟨.Queen, c⟩), ((5, r), ⟨.King, c⟩), ((6, r), ⟨.Bishop, c⟩),
   ((7, r), ⟨.Knight, c⟩), ((8, r), ⟨.Rook, c⟩)]

def pawnRank (c : Colour) (r : Nat) : Board :=
  (List.range 8).map fun i => ((i + 1, r), (⟨.Pawn, c⟩ : Piece))

def freshGame : Board :=
  backRank .White 1 ++ pawnRank .White 2 ++ pawnRank .Black 7 ++ backRank .Black 8

/-- Rust generate_mod (src/main.rs lines 809-834). -/
def generate_mod (col : Colour) (rng1 rng2 : Nat) : Mods :=
  let piece : Piece :=
    if rng1 % 100 ≤ 33 then ⟨.Pawn, .Black⟩
    else if rng1 % 100 ≤ 53 then ⟨.Bishop, .Black⟩
    else if rng1 % 100 ≤ 73 then ⟨.Knight, .Black⟩
    else if rng1 % 100 ≤ 89 then ⟨.Rook, .Black⟩
    else ⟨.Queen, .Black⟩
  let notCol := col.other
  if rng2 % 100 ≤ 9 then .KingOfTheHill
  else if rng2 % 100 ≤ 27 then .Atomic (piece.typeAsColour col)
  else if rng2 % 100 ≤ 45 then .CrazyHouse (piece.typeAsColour notCol)
  else if rng2 % 100 ≤ 63 then .Extinction (piece.typeAsColour notCol)
  else if rng2 % 100 ≤ 81 then .Sniper (piece.typeAsColour col)
  else .TripleCheck (piece.typeAsColour col)

/-- Definition following the spec wording (spec section 4.3): piece-kind
    ranges Pawn under 34, Bishop under 54, Knight under 74, Rook under 90,
    Queen under 100 of diceA mod 100. -/
def specPieceKind (d : Nat) : PieceKind :=
  if d % 100 < 34 then .Pawn
  else if d % 100 < 54 then .Bishop
  else if d % 100 < 74 then .Knight
  else if d % 100 < 90 then .Rook
  else .Queen

/-- Definition following the spec wording (spec section 4.3): modifier-kind
    ranges of diceB mod 100 and the colour binding rule (Atomic, Sniper,
    TripleCheck bind the recipient colour; CrazyHouse, Extinction the
    opposing colour). -/
def generateSpec (recipient : Colour) (dA dB : Nat) : Mods :=
  let k := specPieceKind dA
  let own : Piece := ⟨k, recipient⟩
  let opp : Piece := ⟨k, recipient.other⟩
  if dB % 100 < 10 then .KingOfTheHill
  else if dB % 100 < 28 then .Atomic own
  else if dB % 100 < 46 then .CrazyHouse opp
  else if dB % 100 < 64 then .Extinction opp
  else if dB % 100 < 82 then .Sniper own
  else .TripleCheck own

/-- Taking detection and capture-pile push (src/main.rs lines 544-573): the
    move is a taking move when dst is occupied and the piece at the selected
    square has the active colour; the occupant of dst is then pushed onto the
    pile of its own colour.  Indexing the board at a missing selected square
    is a Rust panic, modelled as none. -/
def pushTaken (st : AppState) (q : Piece) : AppState :=
  match q.colour with
  | .Black => { st with takenBlackPieces := st.takenBlackPieces ++ [q] }
  | .White => { st with takenWhitePieces := st.takenWhitePieces ++ [q] }

def takingDetect (st : AppState) (dst : Pos) : Option (Bool × AppState) :=
  match lookupB st.board dst with
  | none => some (false, st)
  | some q =>
      match lookupB st.board st.selectedPos with
      | none => none
      | some p =>
          if p.colour = st.activeColor then some (true, pushTaken st q)
          else some (false, st)

/-- One square of the Atomic explosion (src/main.rs lines 586-594 and
    621-629): a non-pawn occupant is pushed onto the pile and removed. -/
def explodeAt (b : Board) (pile : List Piece) (k : Pos) : Board × List Piece :=
  match lookupB b k with
  | none => (b, pile)
  | some p =>
      if p.kind = .Pawn then (b, pile)
      else (removeB b k, pile ++ [p])

/-- The 3x3 offsets visited by the Black branch of the explosion
    (src/main.rs lines 583-585): the centre (1,1) is skipped. -/
def blackOffsets : List (Nat × Nat) :=
  [(0, 0), (0, 1), (0, 2), (1, 0), (1, 2), (2, 0), (2, 1), (2, 2)]

/-- The 3x3 offsets visited by the White branch of the explosion
    (src/main.rs lines 619-620): the centre is NOT skipped. -/
def whiteOffsets : List (Nat × Nat) :=
  [(0, 0), (0, 1), (0, 2), (1, 0), (1, 1), (1, 2), (2, 0), (2, 1), (2, 2)]

def atomicLoop : List (Nat × Nat) → Pos → Board → List Piece → Board × List Piece
  | [], _, b, pile => (b, pile)
  | o :: offs, c, b, pile =>
      let r := explodeAt b pile (c.1 + o.1 - 1, c.2 + o.2 - 1)
      atomicLoop offs c r.1 r.2

/-- The board-wide king test after the explosion (src/main.rs lines 597-603
    and 632-638), transcribed exactly: every branch tests the White King. -/
def atomicKingTest (st : AppState) : AppState :=
  let noWhite := !(st.board.any fun e => decide (e.2 = (⟨.King, .White⟩ : Piece)))
  if noWhite && noWhite then endGame st none
  else if noWhite then endGame st (some .Black)
  else if noWhite then endGame st (some .White)
  else st

/-- The Extinction step (src/main.rs lines 605-612 and 640-647): if the
    mover holds Extinction of the defending piece and, on the board with the
    defender removed, some piece equal to the defender remains, the engine
    move is performed (its result discarded) and the mover is declared round
    winner.  Indexing an empty dst is a Rust panic, modelled as none. -/
def extinctionStep (mods : List Mods) (winner : Colour) (eng : Engine)
    (st : AppState) (src dst : Pos) : Option AppState :=
  match lookupB st.board dst with
  | none => none
  | some q =>
      if memMod mods (Mods.Extinction q) then
        let theo := removeB st.board dst
        if theo.any (fun e => decide (e.2 = q)) then
          let st2 :=
            match makeMoveE eng st.board st.activeColor src dst with
            | some (b, ac) => { st with board := b, activeColor := ac }
            | none => st
          some (endGame st2 (some winner))
        else some st
      else some st

/-- The pre-commit modifier effects (src/main.rs lines 575-650): the sniper
    flag, the Atomic explosion with its king test, then the Extinction step,
    dispatched on the active colour. -/
def preEffects (eng : Engine) (st : AppState) (src dst : Pos) :
    Option (Bool × AppState) :=
  match lookupB st.board dst with
  | none => some (false, st)
  | some _ =>
      match lookupB st.board src with
      | none => none
      | some p =>
          match st.activeColor with
          | .Black =>
              let sniper := memMod st.blackMods (Mods.Sniper p)
              let s1 :=
                if memMod st.blackMods (Mods.Atomic p) then
                  let r := atomicLoop blackOffsets dst st.board st.takenWhitePieces
                  atomicKingTest { st with board := r.1, takenWhitePieces := r.2 }
                else st
              match extinctionStep s1.blackMods Colour.Black eng s1 src dst with
              | none => none
              | some s2 => some (sniper, s2)
          | .White =>
              let sniper := memMod st.whiteMods (Mods.Sniper p)
              let s1 :=
                if memMod st.whiteMods (Mods.Atomic p) then
                  let r := atomicLoop whiteOffsets dst st.board st.takenBlackPieces
                  atomicKingTest { st with board := r.1, takenBlackPieces := r.2 }
                else st
              match extinctionStep s1.whiteMods Colour.White eng s1 src dst with
              | none => none
              | some s2 => some (sniper, s2)

/-- The engine commit (src/main.rs line 651). -/
def commitStep (eng : Engine) (st : AppState) (src dst : Pos) : Bool × AppState :=
  match makeMoveE eng st.board st.activeColor src dst with
  | some (b, ac) => (true, { st with board := b, activeColor := ac })
  | none => (false, st)

/-- The Sniper revert (src/main.rs lines 652-655): whatever now occupies dst
    is copied back to src and dst is cleared; run regardless of commit
    success.  Indexing an empty dst is a Rust panic, modelled as none. -/
def sniperRevert (st : AppState) (src dst : Pos) : Option AppState :=
  match lookupB st.board dst with
  | none => none
  | some r => some { st with board := removeB (insertB st.board src r) dst }

/-- The triple-check bookkeeping of the post-commit block (src/main.rs
    lines 660-667 and 675-682): if the given set holds TripleCheck of the
    moved piece and the engine reports Check, and the moved piece reaches a
    square holding the given King, the counter is bumped; at three the given
    winner takes the round.  Transcribed exactly: both call sites of the
    source increment the second counter component. -/
def tripleCheckBump (eng : Engine) (tcMods : List Mods) (kingCol winner : Colour)
    (st : AppState) (p : Piece) (dst : Pos) : AppState :=
  if memMod tcMods (Mods.TripleCheck p) && eng.isCheck st.board then
    if st.board.any (fun e =>
        decide (e.2 = (⟨.King, kingCol⟩ : Piece)) &&
        memPos (eng.validDests p dst) e.1) then
      let c := (st.tripleCheckCounter.1, st.tripleCheckCounter.2 + 1)
      let sc := { st with tripleCheckCounter := c }
      if c.2 ≥ 3 then endGame sc (some winner) else sc
    else st
  else st

/-- The post-commit Atomic removal (src/main.rs lines 668-671 and 683-686):
    when white_mods (in both arms of the source) holds Atomic of the landed
    piece, the move took and sniper did not fire, the landed piece is pushed
    onto the mover pile and removed from the landing square. -/
def postAtomic (st : AppState) (p : Piece) (sniper taking moverIsBlack : Bool)
    (dst : Pos) : AppState :=
  if memMod st.whiteMods (Mods.Atomic p) && !sniper && taking then
    if moverIsBlack then
      { st with takenBlackPieces := st.takenBlackPieces ++ [p],
                board := removeB st.board dst }
    else
      { st with takenWhitePieces := st.takenWhitePieces ++ [p],
                board := removeB st.board dst }
  else st

/-- The post-commit block (src/main.rs lines 656-688): triple-check
    bookkeeping and the post-commit Atomic removal of the landed piece.  The
    active colour has already flipped, so the Colour.White arm is a Black
    mover. -/
def postCommit (eng : Engine) (taking sniper successful : Bool)
    (st : AppState) (dst : Pos) : AppState :=
  if successful && memB st.board dst then
    match lookupB st.board dst with
    | none => st
    | some p =>
        match st.activeColor with
        | .White =>
            postAtomic (tripleCheckBump eng st.blackMods .White .Black st p dst)
              p sniper taking true dst
        | .Black =>
            postAtomic (tripleCheckBump eng st.whiteMods .Black .White st p dst)
              p sniper taking false dst
  else st

/-- The CrazyHouse re-drop branch (src/main.rs lines 690-703): a selected
    pile entry is placed on the board with the opposing colour and removed
    from its pile; out-of-range pile indexing is a Rust panic, modelled as
    none. -/
def crazyDrop (st : AppState) (dst : Pos) : Option AppState :=
  if st.selectedPos.2 = 9 then
    match st.takenBlackPieces.get? st.selectedPos.1 with
    | none => none
    | some pc =>
        some { st with board := insertB st.board dst (pc.typeAsColour .White),
                       takenBlackPieces := st.takenBlackPieces.eraseIdx st.selectedPos.1,
                       activeColor := .Black }
  else if st.selectedPos.2 = 10 then
    match st.takenWhitePieces.get? st.selectedPos.1 with
    | none => none
    | some pc =>
        some { st with board := insertB st.board dst (pc.typeAsColour .Black),
                       takenWhitePieces := st.takenWhitePieces.eraseIdx st.selectedPos.1,
                       activeColor := .White }
  else some st

/-- Clearing of the selection state (src/main.rs lines 705-706). -/
def clearSel (st : AppState) : AppState :=
  { st with selectedPos := (0, 0), highlightedPos := [] }

/-- The whole move resolution for a click on a highlighted square
    (src/main.rs lines 543-707). -/
def resolveMove (eng : Engine) (st : AppState) (dst : Pos) : Option AppState :=
  match takingDetect st dst with
  | none => none
  | some (taking, s1) =>
      match lookupB s1.board s1.selectedPos with
      | some p =>
          if p.colour = s1.activeColor then
            match preEffects eng s1 s1.selectedPos dst with
            | none => none
            | some (sniper, s2) =>
                let cs := commitStep eng s2 s2.selectedPos dst
                match (if sniper then sniperRevert cs.2 s2.selectedPos dst
                       else some cs.2) with
                | none => none
                | some s3 => some (clearSel (postCommit eng taking sniper cs.1 s3 dst))
          else (crazyDrop s1 dst).map clearSel
      | none => (crazyDrop s1 dst).map clearSel

/-- The four centre squares e4, e5, d4, d5 (src/main.rs line 711). -/
def knig : List Pos := [(5, 4), (5, 5), (4, 4), (4, 5)]

/-- The King-of-the-Hill scan over a copy of the board (src/main.rs lines
    709-718). -/
def kothGo : List (Pos × Piece) → AppState → AppState
  | [], st => st
  | e :: rest, st =>
      let s1 := if e.2 = (⟨.King, .White⟩ : Piece) ∧ memPos knig e.1 = true then
                  endGame st (some .White)
                else st
      let s2 := if e.2 = (⟨.King, .Black⟩ : Piece) ∧ memPos knig e.1 = true then
                  endGame s1 (some .Black)
                else s1
      kothGo rest s2

/-- The branch for a click on a square that is not highlighted
    (src/main.rs lines 709-726): king-of-the-hill scan, then fresh selection
    with the legal destinations of the clicked piece. -/
def selectStep (eng : Engine) (st : AppState) (dst : Pos) : AppState :=
  let s1 := kothGo st.board st
  let s2 := { s1 with highlightedPos := [], selectedPos := dst }
  if memB s2.board dst then
    { s2 with highlightedPos := eng.possibleMoves s2.board dst }
  else s2

/-- A click on the game board while the game screen is shown
    (src/main.rs lines 543-727). -/
def gameBoardClick (eng : Engine) (st : AppState) (dst : Pos) : Option AppState :=
  if memPos st.highlightedPos dst then resolveMove eng st dst
  else some (selectStep eng st dst)

/-- The redraw loop of the reward draw (src/main.rs lines 512-530): while
    the candidate is already in the existing set, draw again.  The source
    loop has no termination bound; the fuel makes the embedding total and
    none models non-termination within the provided fuel. -/
def redrawLoop (w : Colour) (existing : List Mods) :
    Nat → Mods → List (Nat × Nat) → Option (Mods × List (Nat × Nat))
  | fuel, m, dice =>
      if memMod existing m then
        match fuel, dice with
        | Nat.succ f, (a, b) :: rest => redrawLoop w existing f (generate_mod w a b) rest
        | _, _ => none
      else some (m, dice)

/-- The three-candidate draw (src/main.rs lines 510-530): three initial
    draws, then each candidate individually redrawn while it collides with
    the existing set.  The colour passed to generate_mod is the winner, the
    collision set is the loser set, exactly as in the source. -/
def drawMods (w : Colour) (existing : List Mods) (dice : List (Nat × Nat))
    (fuel : Nat) : Option (Mods × Mods × Mods) :=
  match dice with
  | (a1, b1) :: (a2, b2) :: (a3, b3) :: rest =>
      match redrawLoop w existing fuel (generate_mod w a1 b1) rest with
      | none => none
      | some (m1, d1) =>
          match redrawLoop w existing fuel (generate_mod w a2 b2) d1 with
          | none => none
          | some (m2, d2) =>
              match redrawLoop w existing fuel (generate_mod w a3 b3) d2 with
              | none => none
              | some (m3, _) => some (m1, m2, m3)
  | _ => none

/-- A click while the score screen is shown (src/main.rs lines 498-536):
    with no winner the board is recreated and play resumes; with a winner the
    three reward candidates are drawn (checked against the loser set) and the
    mod screen opens.  The rng stream is the explicit dice list. -/
def scoreScreenClick (st : AppState) (dice : List (Nat × Nat)) (fuel : Nat) :
    Option AppState :=
  match st.curWinner with
  | none =>
      some { st with screen := ScreenState.GameScreen, board := freshGame,
                     activeColor := .White }
  | some w =>
      let loser := w.other
      let existing := if loser = Colour.White then st.whiteMods else st.blackMods
      match drawMods w existing dice fuel with
      | none => none
      | some (m1, m2, m3) =>
          some { st with screen := ScreenState.ModScreen,
                         randomMods := st.randomMods ++ [m1, m2, m3] }

/-- A click on candidate i while the mod screen is shown (src/main.rs lines
    459-497): the candidate is inserted into the loser set, the board is
    recreated and play resumes.  The winner unwrap and the candidate
    indexing are Rust panics on a malformed state, modelled as none. -/
def modScreenChoice (st : AppState) (i : Nat) : Option AppState :=
  match st.curWinner with
  | none => none
  | some w =>
      match st.randomMods.get? i with
      | none => none
      | some m =>
          some { st with
                 blackMods := if w = Colour.White then insertMod st.blackMods m
                              else st.blackMods,
                 whiteMods := if w = Colour.White then st.whiteMods
                              else insertMod st.whiteMods m,
                 screen := ScreenState.GameScreen, board := freshGame,
                 activeColor := .White, randomMods := [] }

/-- The mover mod set, as selected by the active colour at lines 577-649. -/
def moverMods (st : AppState) : List Mods :=
  match st.activeColor with
  | .White => st.whiteMods
  | .Black => st.blackMods

/-- A test engine that accepts every move. -/
def engTrue : Engine :=
  { ok := fun _ _ _ _ => true, isCheck := fun _ => false,
    validDests := fun _ _ => [], possibleMoves := fun _ _ => [] }

/-- A test engine that rejects every move. -/
def engFalse : Engine :=
  { ok := fun _ _ _ _ => false, isCheck := fun _ => false,
    validDests := fun _ _ => [], possibleMoves := fun _ _ => [] }

/-- The overlay state of the board wrapper: both capture piles, the
    triple-check counters and both modifier sets. -/
def overlayOf (st : AppState) :
    List Piece × List Piece × (Nat × Nat) × List Mods × List Mods :=
  (st.takenBlackPieces, st.takenWhitePieces, st.tripleCheckCounter,
   st.whiteMods, st.blackMods)

/-- An AppState with everything empty, used to build concrete scenarios. -/
def baseSt : AppState :=
  { board := [], activeColor := .White, selectedPos := (0, 0),
    highlightedPos := [], takenBlackPieces := [], takenWhitePieces := [],
    whiteMods := [], blackMods := [], tripleCheckCounter := (0, 0),
    wins := (0, 0), screen := .GameScreen, curWinner := none, randomMods := [] }

/-- White to move holding Extinction of the Black Queen; exactly one Black
    Queen on the board, standing on the destination square (4,4). -/
def stExtOne : AppState :=
  { baseSt with
    board := [((2, 2), ⟨.Rook, .White⟩), ((4, 4), ⟨.Queen, .Black⟩),
              ((1, 1), ⟨.King, .White⟩), ((8, 8), ⟨.King, .Black⟩)],
    selectedPos := (2, 2), highlightedPos := [(4, 4)],
    whiteMods := [Mods.Extinction ⟨.Queen, .Black⟩] }

/-- The same scenario with a second Black Queen on (7,7). -/
def stExtTwo : AppState :=
  { stExtOne with board := ((7, 7), (⟨.Queen, .Black⟩ : Piece)) :: stExtOne.board }

/-- A board with a White King and no Black King. -/
def stOnlyWhiteKing : AppState :=
  { baseSt with board := [((1, 1), ⟨.King, .White⟩)] }

/-- A board with a Black King and no White King. -/
def stOnlyBlackKing : AppState :=
  { baseSt with board := [((8, 8), ⟨.King, .Black⟩)] }

/-- A lone Black Queen standing on the explosion centre (4,4). -/
def bCentreQueen : Board := [((4, 4), ⟨.Queen, .Black⟩)]

/-- Black moves the pawn from (4,4) and takes the White Knight on (3,3);
    White holds Atomic of the black pawn, nobody holds Sniper. -/
def stAtomPost : AppState :=
  { baseSt with
    board := [((4, 4), ⟨.Pawn, .Black⟩), ((3, 3), ⟨.Knight, .White⟩)],
    activeColor := .Black, selectedPos := (4, 4), highlightedPos := [(3, 3)],
    whiteMods := [Mods.Atomic ⟨.Pawn, .Black⟩] }

/-- Score screen after a White round win, both modifier sets empty. -/
def stRewards : AppState :=
  { baseSt with screen := .ScoreScreen, curWinner := some .White }

/-- Score screen of a drawn round with a non-empty pile and a non-zero
    triple-check counter. -/
def stReset : AppState :=
  { baseSt with
    screen := .ScoreScreen, curWinner := none,
    takenBlackPieces := [⟨.Queen, .Black⟩], tripleCheckCounter := (1, 2) }

/-- White Rook on (2,2) set to take the Black Queen on (4,4); White holds
    Sniper of the Rook. -/
def stSnipe : AppState :=
  { baseSt with
    board := [((2, 2), ⟨.Rook, .White⟩), ((4, 4), ⟨.Queen, .Black⟩)],
    selectedPos := (2, 2), highlightedPos := [(4, 4)],
    whiteMods := [Mods.Sniper ⟨.Rook, .White⟩] }

/-- A selected White Rook whose legal destinations do not include (5,5). -/
def stSelect : AppState :=
  { baseSt with
    board := [((2, 2), ⟨.Rook, .White⟩), ((4, 4), ⟨.Queen, .Black⟩)],
    selectedPos := (2, 2), highlightedPos := [(4, 4)],
    takenWhitePieces := [⟨.Pawn, .White⟩],
    blackMods := [Mods.KingOfTheHill], tripleCheckCounter := (0, 1) }

/-- An engine whose legal-destination query returns (4,4) for every square,
    used by the frame witness. -/
def engDest : Engine :=
  { ok := fun _ _ _ _ => true, isCheck := fun _ => false,
    validDests := fun _ _ => [], possibleMoves := fun _ _ => [(4, 4)] }

/-- Mod screen after a White round win offering a single listed candidate,
    with a non-empty pile and a non-zero counter. -/
def stChoice : AppState :=
  { baseSt with
    screen := .ModScreen, curWinner := some .White,
    randomMods := [Mods.KingOfTheHill],
    takenWhitePieces := [⟨.Pawn, .White⟩], tripleCheckCounter := (2, 1) }

/-- The state reached from stChoice by selecting candidate 0. -/
def stChoiceRes : AppState :=
  { stChoice with
    blackMods := [Mods.KingOfTheHill], screen := .GameScreen,
    board := freshGame, activeColor := .White, randomMods := [] }

theorem lookupB_removeB_self (b : Board) (k : Pos) : lookupB (removeB b k) k = none := by
  induction b with
  | nil => rfl
  | cons e t ih =>
      by_cases he : e.1 = k
      · simpa [removeB, he] using ih
      · simpa [removeB, lookupB, he] using ih

theorem lookupB_removeB_ne (b : Board) (k q : Pos) (h : q ≠ k) :
    lookupB (removeB b k) q = lookupB b q := by
  induction b with
  | nil => rfl
  | cons e t ih =>
      by_cases he : e.1 = k
      · have hq : e.1 ≠ q := fun hh => h (by rw [← hh, he])
        simpa [removeB, lookupB, he, hq, Ne.symm h] using ih
      · by_cases heq : e.1 = q
        · simp [removeB, lookupB, he, heq, h]
        · simpa [removeB, lookupB, he, heq] using ih

theorem lookupB_insertB_self (b : Board) (k : Pos) (p : Piece) :
    lookupB (insertB b k p) k = some p := by
  simp [insertB, lookupB]

theorem lookupB_insertB_ne (b : Board) (k q : Pos) (p : Piece) (h : q ≠ k) :
    lookupB (insertB b k p) q = lookupB b q := by
  have hk : k ≠ q := fun hh => h hh.symm
  simp only [insertB, lookupB, if_neg hk]
  exact lookupB_removeB_ne b k q h

theorem explodeAt_fst_none (b : Board) (pile : List Piece) (k : Pos)
    (hbk : lookupB b k = none) : (explodeAt b pile k).1 = b := by
  simp [explodeAt, hbk]

theorem explodeAt_fst_pawn (b : Board) (pile : List Piece) (k : Pos) (p : Piece)
    (hbk : lookupB b k = some p) (hpk : p.kind = PieceKind.Pawn) :
    (explodeAt b pile k).1 = b := by
  simp [explodeAt, hbk, hpk]

theorem explodeAt_fst_remove (b : Board) (pile : List Piece) (k : Pos) (p : Piece)
    (hbk : lookupB b k = some p) (hpk : p.kind ≠ PieceKind.Pawn) :
    (explodeAt b pile k).1 = removeB b k := by
  simp [explodeAt, hbk, hpk]

theorem explodeAt_ne (b : Board) (pile : List Piece) (k q : Pos) (h : q ≠ k) :
    lookupB (explodeAt b pile k).1 q = lookupB b q := by
  cases hbk : lookupB b k with
  | none => rw [explodeAt_fst_none b pile k hbk]
  | some p =>
      by_cases hpk : p.kind = PieceKind.Pawn
      · rw [explodeAt_fst_pawn b pile k p hbk hpk]
      · rw [explodeAt_fst_remove b pile k p hbk hpk, lookupB_removeB_ne b k q h]

theorem explodeAt_none (b : Board) (pile : List Piece) (k q : Pos)
    (h : lookupB b q = none) :
    lookupB (explodeAt b pile k).1 q = none := by
  cases hbk : lookupB b k with
  | none => rw [explodeAt_fst_none b pile k hbk]; exact h
  | some p =>
      by_cases hpk : p.kind = PieceKind.Pawn
      · rw [explodeAt_fst_pawn b pile k p hbk hpk]; exact h
      · rw [explodeAt_fst_remove b pile k p hbk hpk]
        by_cases hqk : q = k
        · rw [hqk]; exact lookupB_removeB_self b k
        · rw [lookupB_removeB_ne b k q hqk]; exact h

theorem explodeAt_pawn (b : Board) (pile : List Piece) (k q : Pos) (pp : Piece)
    (hq : lookupB b q = some pp) (hk : pp.kind = PieceKind.Pawn) :
    lookupB (explodeAt b pile k).1 q = some pp := by
  cases hbk : lookupB b k with
  | none => rw [explodeAt_fst_none b pile k hbk]; exact hq
  | some p =>
      by_cases hpk : p.kind = PieceKind.Pawn
      · rw [explodeAt_fst_pawn b pile k p hbk hpk]; exact hq
      · rw [explodeAt_fst_remove b pile k p hbk hpk]
        by_cases hqk : q = k
        · rw [hqk] at hq
          rw [hq] at hbk
          injection hbk with hpp
          rw [← hpp] at hpk
          exact absurd hk hpk
        · rw [lookupB_removeB_ne b k q hqk]; exact hq

theorem explodeAt_removes (b : Board) (pile : List Piece) (k : Pos) (p : Piece)
    (hb : lookupB b k = some p) (hk : p.kind ≠ PieceKind.Pawn) :
    lookupB (explodeAt b pile k).1 k = none := by
  rw [explodeAt_fst_remove b pile k p hb hk]
  exact lookupB_removeB_self b k

theorem atomicLoop_pawn (q : Pos) (pp : Piece) :
    ∀ (offs : List (Nat × Nat)) (c : Pos) (b : Board) (pile : List Piece),
    lookupB b q = some pp → pp.kind = PieceKind.Pawn →
    lookupB (atomicLoop offs c b pile).1 q = some pp := by
  intro offs
  induction offs with
  | nil => intro c b pile h _; exact h
  | cons o rest ih =>
      intro c b pile h hk
      simp only [atomicLoop]
      exact ih c _ _ (explodeAt_pawn b pile _ q pp h hk) hk

theorem atomicLoop_frame (q : Pos) :
    ∀ (offs : List (Nat × Nat)) (c : Pos) (b : Board) (pile : List Piece),
    (∀ o ∈ offs, ((c.1 + o.1 - 1, c.2 + o.2 - 1) : Pos) ≠ q) →
    lookupB (atomicLoop offs c b pile).1 q = lookupB b q := by
  intro offs
  induction offs with
  | nil => intro c b pile _; rfl
  | cons o rest ih =>
      intro c b pile hall
      simp only [atomicLoop]
      rw [ih c _ _ (fun x hx => hall x (List.mem_cons_of_mem o hx))]
      exact explodeAt_ne b pile _ q (Ne.symm (hall o (List.mem_cons_self o rest)))

theorem atomicLoop_none (q : Pos) :
    ∀ (offs : List (Nat × Nat)) (c : Pos) (b : Board) (pile : List Piece),
    lookupB b q = none →
    lookupB (atomicLoop offs c b pile).1 q = none := by
  intro offs
  induction offs with
  | nil => intro c b pile h; exact h
  | cons o rest ih =>
      intro c b pile h
      simp only [atomicLoop]
      exact ih c _ _ (explodeAt_none b pile _ q h)

theorem atomicLoop_append (xs ys : List (Nat × Nat)) (c : Pos) :
    ∀ (b : Board) (pile : List Piece),
    atomicLoop (xs ++ ys) c b pile =
      atomicLoop ys c (atomicLoop xs c b pile).1 (atomicLoop xs c b pile).2 := by
  induction xs with
  | nil => intro b pile; rfl
  | cons o rest ih =>
      intro b pile
      simp only [List.cons_append, atomicLoop]
      exact ih _ _

theorem atomicLoop_cons (o : Nat × Nat) (offs : List (Nat × Nat)) (c : Pos)
    (b : Board) (pile : List Piece) :
    atomicLoop (o :: offs) c b pile =
      atomicLoop offs c (explodeAt b pile (c.1 + o.1 - 1, c.2 + o.2 - 1)).1
        (explodeAt b pile (c.1 + o.1 - 1, c.2 + o.2 - 1)).2 := rfl

theorem blackOffsets_miss_centre (c : Pos) (h1 : 1 ≤ c.1) (h2 : 1 ≤ c.2) :
    ∀ o ∈ blackOffsets, ((c.1 + o.1 - 1, c.2 + o.2 - 1) : Pos) ≠ c := by
  rcases c with ⟨cf, cr⟩
  intro o ho
  simp only [blackOffsets, List.mem_cons] at ho
  rcases ho with rfl | rfl | rfl | rfl | rfl | rfl | rfl | rfl | ho
  · simp [Prod.ext_iff] <;> omega
  · simp [Prod.ext_iff] <;> omega
  · simp [Prod.ext_iff] <;> omega
  · simp [Prod.ext_iff] <;> omega
  · simp [Prod.ext_iff] <;> omega
  · simp [Prod.ext_iff] <;> omega
  · simp [Prod.ext_iff] <;> omega
  · simp [Prod.ext_iff] <;> omega
  · exact absurd ho (List.not_mem_nil o)

theorem atomicLoop_black_centre (c : Pos) (b : Board) (pile : List Piece)
    (pp : Piece) (h1 : 1 ≤ c.1) (h2 : 1 ≤ c.2) (hc : lookupB b c = some pp) :
    lookupB (atomicLoop blackOffsets c b pile).1 c = some pp := by
  rw [atomicLoop_frame c blackOffsets c b pile (blackOffsets_miss_centre c h1 h2)]
  exact hc

theorem atomicLoop_white_centre (c : Pos) (b : Board) (pile : List Piece)
    (pp : Piece) (h1 : 1 ≤ c.1) (h2 : 1 ≤ c.2) (hc : lookupB b c = some pp)
    (hk : pp.kind ≠ PieceKind.Pawn) :
    lookupB (atomicLoop whiteOffsets c b pile).1 c = none := by
  have hsplit : whiteOffsets =
      [(0, 0), (0, 1), (0, 2), (1, 0)] ++
        ((1, 1) :: [(1, 2), (2, 0), (2, 1), (2, 2)]) := rfl
  rw [hsplit, atomicLoop_append, atomicLoop_cons]
  apply atomicLoop_none
  have hkey : ((c.1 + 1 - 1, c.2 + 1 - 1) : Pos) = c := by
    rcases c with ⟨cf, cr⟩; simp
  rw [hkey]
  apply explodeAt_removes _ _ _ pp _ hk
  rw [atomicLoop_frame c [(0, 0), (0, 1), (0, 2), (1, 0)] c b pile ?hmiss]
  · exact hc
  case hmiss =>
    rcases c with ⟨cf, cr⟩
    intro o ho
    simp only [List.mem_cons] at ho
    rcases ho with rfl | rfl | rfl | rfl | ho
    · simp [Prod.ext_iff] <;> omega
    · simp [Prod.ext_iff] <;> omega
    · simp [Prod.ext_iff] <;> omega
    · simp [Prod.ext_iff] <;> omega
    · exact absurd ho (List.not_mem_nil o)

theorem pushTaken_board (st : AppState) (q : Piece) :
    (pushTaken st q).board = st.board := by
  cases hq : q.colour <;> simp [pushTaken, hq]

theorem pushTaken_selectedPos (st : AppState) (q : Piece) :
    (pushTaken st q).selectedPos = st.selectedPos := by
  cases hq : q.colour <;> simp [pushTaken, hq]

theorem pushTaken_activeColor (st : AppState) (q : Piece) :
    (pushTaken st q).activeColor = st.activeColor := by
  cases hq : q.colour <;> simp [pushTaken, hq]

theorem pushTaken_whiteMods (st : AppState) (q : Piece) :
    (pushTaken st q).whiteMods = st.whiteMods := by
  cases hq : q.colour <;> simp [pushTaken, hq]

theorem pushTaken_blackMods (st : AppState) (q : Piece) :
    (pushTaken st q).blackMods = st.blackMods := by
  cases hq : q.colour <;> simp [pushTaken, hq]

theorem pushTaken_white (st : AppState) (q : Piece) (hq : q.colour = .White) :
    (pushTaken st q).takenWhitePieces = st.takenWhitePieces ++ [q] ∧
      (pushTaken st q).takenBlackPieces = st.takenBlackPieces := by
  simp [pushTaken, hq]

theorem pushTaken_black (st : AppState) (q : Piece) (hq : q.colour = .Black) :
    (pushTaken st q).takenBlackPieces = st.takenBlackPieces ++ [q] ∧
      (pushTaken st q).takenWhitePieces = st.takenWhitePieces := by
  simp [pushTaken, hq]

theorem kothGo_frame :
    ∀ (l : List (Pos × Piece)) (st : AppState),
    overlayOf (kothGo l st) = overlayOf st ∧ (kothGo l st).board = st.board := by
  intro l
  induction l with
  | nil => intro st; exact ⟨rfl, rfl⟩
  | cons e rest ih =>
      intro st
      simp only [kothGo]
      constructor
      · rw [(ih _).1]; split_ifs <;> rfl
      · rw [(ih _).2]; split_ifs <;> rfl

theorem redrawLoop_avoids (w : Colour) (existing : List Mods) :
    ∀ (fuel : Nat) (m : Mods) (dice : List (Nat × Nat)) (r : Mods)
      (rest : List (Nat × Nat)),
    redrawLoop w existing fuel m dice = some (r, rest) →
    memMod existing r = false := by
  intro fuel
  induction fuel with
  | zero =>
      intro m dice r rest h
      unfold redrawLoop at h
      by_cases hm : memMod existing m = true
      · simp only [hm, if_true] at h
        cases dice <;> simp at h
      · rw [if_neg (by simpa using hm)] at h
        injection h with h2
        injection h2 with ha hb
        rw [← ha]
        simpa using hm
  | succ f ih =>
      intro m dice r rest h
      unfold redrawLoop at h
      by_cases hm : memMod existing m = true
      · simp only [hm, if_true] at h
        cases dice with
        | nil => simp at h
        | cons d tail =>
            rcases d with ⟨a, b⟩
            exact ih _ _ _ _ h
      · rw [if_neg (by simpa using hm)] at h
        injection h with h2
        injection h2 with ha hb
        rw [← ha]
        simpa using hm

theorem drawMods_avoid (w : Colour) (existing : List Mods)
    (dice : List (Nat × Nat)) (fuel : Nat) (m1 m2 m3 : Mods)
    (h : drawMods w existing dice fuel = some (m1, m2, m3)) :
    memMod existing m1 = false ∧ memMod existing m2 = false ∧
      memMod existing m3 = false := by
  rcases dice with _ | ⟨⟨a1, b1⟩, _ | ⟨⟨a2, b2⟩, _ | ⟨⟨a3, b3⟩, rest⟩⟩⟩
  · simp [drawMods] at h
  · simp [drawMods] at h
  · simp [drawMods] at h
  simp only [drawMods] at h
  cases h1 : redrawLoop w existing fuel (generate_mod w a1 b1) rest with
  | none => rw [h1] at h; simp at h
  | some pr1 =>
      rcases pr1 with ⟨r1, d1⟩
      rw [h1] at h
      dsimp only at h
      cases h2 : redrawLoop w existing fuel (generate_mod w a2 b2) d1 with
      | none => rw [h2] at h; simp at h
      | some pr2 =>
          rcases pr2 with ⟨r2, d2⟩
          rw [h2] at h
          dsimp only at h
          cases h3 : redrawLoop w existing fuel (generate_mod w a3 b3) d2 with
          | none => rw [h3] at h; simp at h
          | some pr3 =>
              rcases pr3 with ⟨r3, d3⟩
              rw [h3] at h
              dsimp only at h
              simp only [Option.some.injEq, Prod.mk.injEq] at h
              rcases h with ⟨hm1, hm2, hm3⟩
              rw [← hm1, ← hm2, ← hm3]
              exact ⟨redrawLoop_avoids w existing fuel _ rest r1 d1 h1,
                     redrawLoop_avoids w existing fuel _ d1 r2 d2 h2,
                     redrawLoop_avoids w existing fuel _ d2 r3 d3 h3⟩

theorem tripleCheckBump_board (eng : Engine) (tcMods : List Mods)
    (kc w : Colour) (st : AppState) (p : Piece) (dst : Pos) :
    (tripleCheckBump eng tcMods kc w st p dst).board = st.board := by
  simp only [tripleCheckBump]; split_ifs <;> rfl

theorem tripleCheckBump_whiteMods (eng : Engine) (tcMods : List Mods)
    (kc w : Colour) (st : AppState) (p : Piece) (dst : Pos) :
    (tripleCheckBump eng tcMods kc w st p dst).whiteMods = st.whiteMods := by
  simp only [tripleCheckBump]; split_ifs <;> rfl

theorem postAtomic_removes (st : AppState) (p : Piece) (mib : Bool) (dst : Pos)
    (hw : memMod st.whiteMods (Mods.Atomic p) = true) :
    lookupB (postAtomic st p false true mib dst).board dst = none := by
  simp only [postAtomic, hw, Bool.not_false, Bool.and_true, Bool.true_and]
  cases mib <;> simp only [if_true, if_false] <;>
    exact lookupB_removeB_self st.board dst

theorem gm_piece (d : Nat) :
    (if d % 100 ≤ 33 then (⟨.Pawn, .Black⟩ : Piece)
     else if d % 100 ≤ 53 then ⟨.Bishop, .Black⟩
     else if d % 100 ≤ 73 then ⟨.Knight, .Black⟩
     else if d % 100 ≤ 89 then ⟨.Rook, .Black⟩
     else ⟨.Queen, .Black⟩) = ⟨specPieceKind d, .Black⟩ := by
  unfold specPieceKind
  split_ifs <;> first | rfl | omega

/-- C8: generate_mod is a pure function of the recipient colour and the two
    dice: the piece kind follows the ranges Pawn under 34, Bishop under 54,
    Knight under 74, Rook under 90, Queen under 100 of diceA mod 100; the
    modifier kind follows the ranges KingOfTheHill under 10, Atomic under 28,
    CrazyHouse under 46, Extinction under 64, Sniper under 82, TripleCheck
    under 100 of diceB mod 100, with the spec colour binding; in particular
    for recipient White and dice (10, 15) it yields Atomic of the White
    Pawn. -/
theorem c8_generate_mod_ranges :
    (∀ (c : Colour) (dA dB : Nat), generate_mod c dA dB = generateSpec c dA dB) ∧
      generate_mod .White 10 15 = Mods.Atomic ⟨.Pawn, .White⟩ := by
  constructor
  · intro c dA dB
    simp only [generate_mod, generateSpec]
    rw [gm_piece dA]
    simp only [Piece.typeAsColour]
    split_ifs <;> first | rfl | omega
  · rfl

/-- C1: the Extinction condition in the source is inverted.  With White
    holding Extinction of the Black Queen and exactly one Black Queen, on the
    destination square, the claim requires the step to commit the move and
    declare White round winner; the source step does nothing (first
    conjunct).  With a second Black Queen remaining elsewhere the claim
    requires the step to be a pure no-op; the source step commits the move
    and declares White the round winner (second conjunct). -/
theorem c1_extinction_condition_inverted :
    extinctionStep stExtOne.whiteMods Colour.White engTrue stExtOne (2, 2) (4, 4) =
      some stExtOne ∧
    (extinctionStep stExtTwo.whiteMods Colour.White engTrue stExtTwo (2, 2) (4, 4)).map
        (fun s => (s.curWinner, s.screen, lookupB s.board (4, 4),
                   lookupB s.board (2, 2))) =
      some (some Colour.White, ScreenState.ScoreScreen,
            some (⟨.Rook, .White⟩ : Piece), none) := by
  exact ⟨rfl, rfl⟩

/-- C2: the board-wide king test after the Atomic explosion only ever tests
    for the White King.  On a board whose Black King is gone (White King
    present) the claim requires a round end in favour of White; the source
    test changes nothing (first conjunct).  On a board whose White King is
    gone (Black King present) the claim requires Black to win; the source
    ends the round with no winner (second conjunct). -/
theorem c2_atomic_king_test_white_only :
    atomicKingTest stOnlyWhiteKing = stOnlyWhiteKing ∧
    (atomicKingTest stOnlyBlackKing).curWinner = none ∧
    (atomicKingTest stOnlyBlackKing).screen = ScreenState.ScoreScreen := by
  exact ⟨rfl, rfl, rfl⟩

/-- C3: a resolved Sniper capture (the mover holds Sniper of the moving
    piece, the destination holds an opposing piece, no Atomic or Extinction
    modifier of the involved pieces interferes, and the engine accepts the
    commit) leaves the mover piece on the origin square, clears the
    destination square, leaves every other square unchanged (so the defender
    is gone from the board), and appends the defender to the capture pile of
    its own colour. -/
theorem c3_sniper_capture_resolution (eng : Engine) (st : AppState)
    (dst : Pos) (p q : Piece)
    (hp : lookupB st.board st.selectedPos = some p)
    (hcol : p.colour = st.activeColor)
    (hq : lookupB st.board dst = some q)
    (hqc : q.colour ≠ st.activeColor)
    (hsn : memMod (moverMods st) (Mods.Sniper p) = true)
    (hna : memMod (moverMods st) (Mods.Atomic p) = false)
    (hne : memMod (moverMods st) (Mods.Extinction q) = false)
    (hok : eng.ok st.board st.activeColor st.selectedPos dst = true) :
    ∃ st2, resolveMove eng st dst = some st2 ∧
      lookupB st2.board st.selectedPos = some p ∧
      lookupB st2.board dst = none ∧
      (∀ r, r ≠ st.selectedPos → r ≠ dst → lookupB st2.board r = lookupB st.board r) ∧
      (q.colour = .White → st2.takenWhitePieces = st.takenWhitePieces ++ [q] ∧
        st2.takenBlackPieces = st.takenBlackPieces) ∧
      (q.colour = .Black → st2.takenBlackPieces = st.takenBlackPieces ++ [q] ∧
        st2.takenWhitePieces = st.takenWhitePieces) := by
  have hsd : st.selectedPos ≠ dst := by
    intro hh
    rw [hh, hq] at hp
    injection hp with hpq
    rw [hpq] at hqc
    exact hqc hcol
  cases hac : st.activeColor with
  | Black =>
      simp only [moverMods, hac] at hsn hna hne
      rw [hac] at hok
      simp only [resolveMove, takingDetect, hq, hp, hcol, hac, if_pos,
        pushTaken_board, pushTaken_selectedPos, pushTaken_activeColor,
        pushTaken_blackMods, pushTaken_whiteMods,
        preEffects, extinctionStep, hsn, hna, hne,
        commitStep, makeMoveE, hok, sniperRevert, lookupB_insertB_self,
        postCommit, memB, lookupB_removeB_self, Option.isSome_none,
        clearSel,
        Bool.false_eq_true, Bool.true_eq_false, if_false, if_true,
        Bool.not_true, Bool.not_false, Bool.and_true, Bool.true_and,
        Bool.and_false, Bool.false_and, true_and, and_true, false_and,
        and_false, ite_true, ite_false]
      refine ⟨_, rfl, ?_, ?_, ?_, ?_, ?_⟩
      · rw [lookupB_removeB_ne _ _ _ hsd, lookupB_insertB_self]
      · exact lookupB_removeB_self _ _
      · intro r hr1 hr2
        rw [lookupB_removeB_ne _ _ _ hr2, lookupB_insertB_ne _ _ _ _ hr1,
          lookupB_insertB_ne _ _ _ _ hr2, lookupB_removeB_ne _ _ _ hr1]
      · intro hqw; exact ⟨(pushTaken_white st q hqw).1, (pushTaken_white st q hqw).2⟩
      · intro hqb; exact ⟨(pushTaken_black st q hqb).1, (pushTaken_black st q hqb).2⟩
  | White =>
      simp only [moverMods, hac] at hsn hna hne
      rw [hac] at hok
      simp only [resolveMove, takingDetect, hq, hp, hcol, hac, if_pos,
        pushTaken_board, pushTaken_selectedPos, pushTaken_activeColor,
        pushTaken_blackMods, pushTaken_whiteMods,
        preEffects, extinctionStep, hsn, hna, hne,
        commitStep, makeMoveE, hok, sniperRevert, lookupB_insertB_self,
        postCommit, memB, lookupB_removeB_self, Option.isSome_none,
        clearSel,
        Bool.false_eq_true, Bool.true_eq_false, if_false, if_true,
        Bool.not_true, Bool.not_false, Bool.and_true, Bool.true_and,
        Bool.and_false, Bool.false_and, true_and, and_true, false_and,
        and_false, ite_true, ite_false]
      refine ⟨_, rfl, ?_, ?_, ?_, ?_, ?_⟩
      · rw [lookupB_removeB_ne _ _ _ hsd, lookupB_insertB_self]
      · exact lookupB_removeB_self _ _
      · intro r hr1 hr2
        rw [lookupB_removeB_ne _ _ _ hr2, lookupB_insertB_ne _ _ _ _ hr1,
          lookupB_insertB_ne _ _ _ _ hr2, lookupB_removeB_ne _ _ _ hr1]
      · intro hqw; exact ⟨(pushTaken_white st q hqw).1, (pushTaken_white st q hqw).2⟩
      · intro hqb; exact ⟨(pushTaken_black st q hqb).1, (pushTaken_black st q hqb).2⟩

/-- Witness for C3 at a concrete input: the White Rook on (2,2) snipes the
    Black Queen on (4,4); afterwards the Rook is back on (2,2), the square
    (4,4) is empty and the Queen sits in the black capture pile. -/
theorem c3_sniper_capture_resolution_witness :
    memMod (moverMods stSnipe) (Mods.Sniper ⟨.Rook, .White⟩) = true ∧
    (∃ st2, resolveMove engTrue stSnipe (4, 4) = some st2 ∧
      lookupB st2.board stSnipe.selectedPos = some ⟨.Rook, .White⟩ ∧
      lookupB st2.board (4, 4) = none ∧
      (∀ r, r ≠ stSnipe.selectedPos → r ≠ (4, 4) →
        lookupB st2.board r = lookupB stSnipe.board r) ∧
      ((⟨.Queen, .Black⟩ : Piece).colour = .White →
        st2.takenWhitePieces = stSnipe.takenWhitePieces ++ [⟨.Queen, .Black⟩] ∧
        st2.takenBlackPieces = stSnipe.takenBlackPieces) ∧
      ((⟨.Queen, .Black⟩ : Piece).colour = .Black →
        st2.takenBlackPieces = stSnipe.takenBlackPieces ++ [⟨.Queen, .Black⟩] ∧
        st2.takenWhitePieces = stSnipe.takenWhitePieces)) :=
  ⟨by decide,
   c3_sniper_capture_resolution engTrue stSnipe (4, 4) ⟨.Rook, .White⟩
     ⟨.Queen, .Black⟩ (by decide) (by decide) (by decide) (by decide)
     (by decide) (by decide) (by decide) (by decide)⟩

/-- C4 counterexample: with an empty existing set and the dice stream
    repeating (10, 15), the three returned candidates are all Atomic of the
    White Pawn, so the draw does return duplicate values among the three
    candidates, refuting the pairwise-distinctness part of the claim. -/
theorem c4_duplicate_candidates :
    drawMods Colour.White [] [(10, 15), (10, 15), (10, 15)] 0 =
      some (Mods.Atomic ⟨.Pawn, .White⟩, Mods.Atomic ⟨.Pawn, .White⟩,
            Mods.Atomic ⟨.Pawn, .White⟩) := by
  rfl

/-- C4 (amended): whenever the reward draw returns three candidates, none of
    them belongs to the existing set of the recipient; the three candidates
    are however not necessarily pairwise distinct from each other. -/
theorem c4_candidates_avoid_existing (w : Colour) (existing : List Mods)
    (dice : List (Nat × Nat)) (fuel : Nat) (m1 m2 m3 : Mods)
    (h : drawMods w existing dice fuel = some (m1, m2, m3)) :
    memMod existing m1 = false ∧ memMod existing m2 = false ∧
      memMod existing m3 = false :=
  drawMods_avoid w existing dice fuel m1 m2 m3 h

/-- Witness for the amended C4 theorem: with KingOfTheHill already owned the
    first initial draw collides and is redrawn, and all three returned
    candidates avoid the existing set. -/
theorem c4_candidates_avoid_existing_witness :
    drawMods Colour.White [Mods.KingOfTheHill]
        [(5, 5), (10, 15), (34, 95), (90, 88)] 1 =
      some (Mods.TripleCheck ⟨.Queen, .White⟩, Mods.Atomic ⟨.Pawn, .White⟩,
            Mods.TripleCheck ⟨.Bishop, .White⟩) ∧
    (memMod [Mods.KingOfTheHill] (Mods.TripleCheck ⟨.Queen, .White⟩) = false ∧
     memMod [Mods.KingOfTheHill] (Mods.Atomic ⟨.Pawn, .White⟩) = false ∧
     memMod [Mods.KingOfTheHill] (Mods.TripleCheck ⟨.Bishop, .White⟩) = false) :=
  ⟨by rfl,
   c4_candidates_avoid_existing Colour.White [Mods.KingOfTheHill]
     [(5, 5), (10, 15), (34, 95), (90, 88)] 1 _ _ _ (by rfl)⟩

/-- C5 counterexample: acknowledging a no-winner round end returns to the
    game screen with a fresh board, but the captured pile and the
    triple-check counter keep their old values, refuting the claim that both
    piles become empty and both counters are reset to zero. -/
theorem c5_overlay_survives_reset :
    (scoreScreenClick stReset [] 0).map
        (fun s => (s.screen, s.board, s.takenBlackPieces, s.tripleCheckCounter)) =
      some (ScreenState.GameScreen, freshGame,
            [(⟨.Queen, .Black⟩ : Piece)], (1, 2)) := by
  rfl

/-- C5 (amended): on both transitions back to Playing the engine board is
    recreated in the initial position with White to move and, on the reward
    path, the candidate list is cleared and the chosen candidate inserted
    into the loser modifier set; the capture piles, the triple-check
    counters and the round tally are left unchanged, not reset. -/
theorem c5_round_transition_state :
    (∀ (st : AppState) (dice : List (Nat × Nat)) (fuel : Nat),
       st.curWinner = none →
       scoreScreenClick st dice fuel =
         some { st with screen := ScreenState.GameScreen, board := freshGame,
                        activeColor := .White }) ∧
    (∀ (st : AppState) (w : Colour) (i : Nat) (m : Mods) (st2 : AppState),
       st.curWinner = some w → st.randomMods.get? i = some m →
       modScreenChoice st i = some st2 →
       st2.board = freshGame ∧ st2.activeColor = .White ∧
       st2.screen = ScreenState.GameScreen ∧ st2.randomMods = [] ∧
       st2.takenBlackPieces = st.takenBlackPieces ∧
       st2.takenWhitePieces = st.takenWhitePieces ∧
       st2.tripleCheckCounter = st.tripleCheckCounter ∧
       st2.wins = st.wins ∧
       st2.blackMods =
         (if w = Colour.White then insertMod st.blackMods m else st.blackMods) ∧
       st2.whiteMods =
         (if w = Colour.White then st.whiteMods else insertMod st.whiteMods m)) := by
  constructor
  · intro st dice fuel h
    simp [scoreScreenClick, h]
  · intro st w i m st2 hw hm h
    simp only [modScreenChoice, hw, hm] at h
    injection h with h2
    rw [← h2]
    exact ⟨rfl, rfl, rfl, rfl, rfl, rfl, rfl, rfl, rfl, rfl⟩

/-- Witness for the amended C5 theorem at concrete inputs: the no-winner
    acknowledgement on stReset, and the candidate selection on stChoice. -/
theorem c5_round_transition_state_witness :
    (stReset.curWinner = none ∧
     scoreScreenClick stReset [] 0 =
       some { stReset with screen := ScreenState.GameScreen, board := freshGame,
                           activeColor := .White }) ∧
    (modScreenChoice stChoice 0 = some stChoiceRes ∧
     stChoiceRes.board = freshGame ∧ stChoiceRes.activeColor = .White ∧
     stChoiceRes.screen = ScreenState.GameScreen ∧ stChoiceRes.randomMods = [] ∧
     stChoiceRes.takenBlackPieces = stChoice.takenBlackPieces ∧
     stChoiceRes.takenWhitePieces = stChoice.takenWhitePieces ∧
     stChoiceRes.tripleCheckCounter = stChoice.tripleCheckCounter ∧
     stChoiceRes.wins = stChoice.wins ∧
     stChoiceRes.blackMods =
       (if Colour.White = Colour.White then insertMod stChoice.blackMods
          Mods.KingOfTheHill else stChoice.blackMods) ∧
     stChoiceRes.whiteMods =
       (if Colour.White = Colour.White then stChoice.whiteMods
        else insertMod stChoice.whiteMods Mods.KingOfTheHill)) :=
  ⟨⟨rfl, c5_round_transition_state.1 stReset [] 0 rfl⟩,
   ⟨by decide,
    c5_round_transition_state.2 stChoice Colour.White 0 Mods.KingOfTheHill
      stChoiceRes rfl rfl (by decide)⟩⟩

/-- C6 counterexample: the claim fails twice over.  A White mover explosion
    does not skip the landing square: on a board with a lone Black Queen on
    the centre square the White explosion loop removes the piece standing on
    the landing square itself (second conjunct).  Moreover a full resolution
    of a Black pawn capture, with Atomic of that pawn in white_mods, removes
    the landed pawn from the landing square, a square of the 3x3
    neighbourhood, although no Sniper modifier is held by anyone (remaining
    conjuncts). -/
theorem c6_landing_square_cleared_without_sniper :
    lookupB bCentreQueen (4, 4) = some ⟨.Queen, .Black⟩ ∧
    lookupB (atomicLoop whiteOffsets (4, 4) bCentreQueen []).1 (4, 4) = none ∧
    (resolveMove engTrue stAtomPost (3, 3)).map
        (fun s => (lookupB s.board (3, 3), s.takenBlackPieces)) =
      some (none, [(⟨.Pawn, .Black⟩ : Piece)]) ∧
    stAtomPost.whiteMods = [Mods.Atomic ⟨.Pawn, .Black⟩] ∧
    stAtomPost.blackMods = [] :=
  ⟨rfl, rfl, rfl, rfl, rfl⟩

/-- C6 (amended): the explosion loops never remove a pawn; the Black mover
    explosion leaves the landing square untouched; the White mover explosion
    removes a non-pawn occupant of the landing square itself; and after a
    successful commit of a taking move without sniper, when white_mods holds
    Atomic of the landed piece, the landed piece (a pawn included) is removed
    from the landing square by the post-commit Atomic step. -/
theorem c6_atomic_explosion_behaviour :
    (∀ (offs : List (Nat × Nat)) (c : Pos) (b : Board) (pile : List Piece)
       (q : Pos) (pp : Piece),
       lookupB b q = some pp → pp.kind = PieceKind.Pawn →
       lookupB (atomicLoop offs c b pile).1 q = some pp) ∧
    (∀ (c : Pos) (b : Board) (pile : List Piece) (pp : Piece),
       1 ≤ c.1 → 1 ≤ c.2 → lookupB b c = some pp →
       lookupB (atomicLoop blackOffsets c b pile).1 c = some pp) ∧
    (∀ (c : Pos) (b : Board) (pile : List Piece) (pp : Piece),
       1 ≤ c.1 → 1 ≤ c.2 → lookupB b c = some pp → pp.kind ≠ PieceKind.Pawn →
       lookupB (atomicLoop whiteOffsets c b pile).1 c = none) ∧
    (∀ (eng : Engine) (st : AppState) (dst : Pos) (p : Piece),
       lookupB st.board dst = some p →
       memMod st.whiteMods (Mods.Atomic p) = true →
       lookupB (postCommit eng true false true st dst).board dst = none) := by
  refine ⟨?_, ?_, ?_, ?_⟩
  · intro offs c b pile q pp h hk
    exact atomicLoop_pawn q pp offs c b pile h hk
  · intro c b pile pp h1 h2 hc
    exact atomicLoop_black_centre c b pile pp h1 h2 hc
  · intro c b pile pp h1 h2 hc hk
    exact atomicLoop_white_centre c b pile pp h1 h2 hc hk
  · intro eng st dst p hp hw
    have hm : memB st.board dst = true := by simp [memB, hp]
    simp only [postCommit, hm, Bool.and_true, Bool.true_and, if_true, hp]
    cases hac : st.activeColor
    · have hw2 : memMod (tripleCheckBump eng st.blackMods .White .Black st p dst).whiteMods
          (Mods.Atomic p) = true := by
        rw [tripleCheckBump_whiteMods]; exact hw
      exact postAtomic_removes _ p true dst hw2
    · have hw2 : memMod (tripleCheckBump eng st.whiteMods .Black .White st p dst).whiteMods
          (Mods.Atomic p) = true := by
        rw [tripleCheckBump_whiteMods]; exact hw
      exact postAtomic_removes _ p false dst hw2

/-- Witness for the amended C6 theorem at concrete inputs: a White pawn next
    to the centre survives the White explosion; the Black explosion leaves
    the centre Queen in place; the White explosion clears the centre Queen;
    and the post-commit Atomic step clears the landed Black pawn. -/
theorem c6_atomic_explosion_behaviour_witness :
    lookupB (atomicLoop whiteOffsets (4, 4) [((4, 5), ⟨.Pawn, .White⟩)] []).1 (4, 5) =
      some (⟨.Pawn, .White⟩ : Piece) ∧
    lookupB (atomicLoop blackOffsets (4, 4) bCentreQueen []).1 (4, 4) =
      some (⟨.Queen, .Black⟩ : Piece) ∧
    lookupB (atomicLoop whiteOffsets (4, 4) bCentreQueen []).1 (4, 4) = none ∧
    lookupB (postCommit engTrue true false true stAtomPost (4, 4)).board (4, 4) = none :=
  ⟨c6_atomic_explosion_behaviour.1 whiteOffsets (4, 4) _ [] (4, 5) _ rfl rfl,
   c6_atomic_explosion_behaviour.2.1 (4, 4) _ [] _ (by decide) (by decide) rfl,
   c6_atomic_explosion_behaviour.2.2.1 (4, 4) _ [] _ (by decide) (by decide) rfl
     (by decide),
   c6_atomic_explosion_behaviour.2.2.2 engTrue stAtomPost (4, 4) _ rfl (by decide)⟩

/-- C7: the reward candidates are generated with the colour of the winner,
    not of the recipient loser.  After a White round win the loser is Black,
    yet the drawn Atomic candidate carries a White Pawn (first conjunct), and
    choosing it inserts that White-bound modifier into the Black set (second
    conjunct); the claim requires an Atomic candidate for recipient Black to
    carry a Black piece. -/
theorem c7_candidates_bound_to_winner_colour :
    (scoreScreenClick stRewards [(10, 15), (34, 95), (90, 5)] 0).map
        (fun s => (s.screen, s.randomMods)) =
      some (ScreenState.ModScreen,
        [Mods.Atomic ⟨.Pawn, .White⟩, Mods.TripleCheck ⟨.Bishop, .White⟩,
         Mods.KingOfTheHill]) ∧
    ((scoreScreenClick stRewards [(10, 15), (34, 95), (90, 5)] 0).bind
        (fun s => modScreenChoice s 0)).map
        (fun s => (s.blackMods, s.whiteMods)) =
      some ([Mods.Atomic ⟨.Pawn, .White⟩], []) := by
  exact ⟨rfl, rfl⟩

/-- C9: a click on a destination outside the legal-destination set of the
    base engine for the selected piece resolves without touching the overlay
    state: both capture piles, the triple-check counters and both modifier
    sets are exactly as before. -/
theorem c9_illegal_move_frame (eng : Engine) (st : AppState) (dst : Pos)
    (hsel : st.highlightedPos = eng.possibleMoves st.board st.selectedPos)
    (hno : memPos (eng.possibleMoves st.board st.selectedPos) dst = false) :
    ∃ st2, gameBoardClick eng st dst = some st2 ∧ overlayOf st2 = overlayOf st := by
  have hmem : memPos st.highlightedPos dst = false := by rw [hsel]; exact hno
  refine ⟨selectStep eng st dst, ?_, ?_⟩
  · simp [gameBoardClick, hmem]
  · simp only [selectStep]
    split_ifs <;> exact (kothGo_frame st.board st).1

/-- Witness for C9 at a concrete input: clicking (5,5), which the engine does
    not list for the selected Rook, leaves the overlay unchanged. -/
theorem c9_illegal_move_frame_witness :
    stSelect.highlightedPos =
      engDest.possibleMoves stSelect.board stSelect.selectedPos ∧
    memPos (engDest.possibleMoves stSelect.board stSelect.selectedPos) (5, 5) =
      false ∧
    ∃ st2, gameBoardClick engDest stSelect (5, 5) = some st2 ∧
      overlayOf st2 = overlayOf stSelect :=
  ⟨rfl, by decide, c9_illegal_move_frame engDest stSelect (5, 5) rfl (by decide)⟩

/-- C10: when the mover holds Sniper of the moving piece, the destination is
    occupied by an opposing piece, no Atomic or Extinction modifier of the
    involved pieces interferes, and the base engine rejects the commit, the
    Sniper revert still runs: the defending piece is copied onto the origin
    square (displacing the mover piece), the destination square is cleared,
    every other square keeps its content, and the turn does not pass, so the
    board is mutated although the move was not committed. -/
theorem c10_sniper_revert_on_failed_commit (eng : Engine) (st : AppState)
    (dst : Pos) (p q : Piece)
    (hp : lookupB st.board st.selectedPos = some p)
    (hcol : p.colour = st.activeColor)
    (hq : lookupB st.board dst = some q)
    (hqc : q.colour ≠ st.activeColor)
    (hsn : memMod (moverMods st) (Mods.Sniper p) = true)
    (hna : memMod (moverMods st) (Mods.Atomic p) = false)
    (hne : memMod (moverMods st) (Mods.Extinction q) = false)
    (hok : eng.ok st.board st.activeColor st.selectedPos dst = false) :
    ∃ st2, resolveMove eng st dst = some st2 ∧
      lookupB st2.board st.selectedPos = some q ∧
      lookupB st2.board dst = none ∧
      st2.activeColor = st.activeColor ∧
      (∀ r, r ≠ st.selectedPos → r ≠ dst → lookupB st2.board r = lookupB st.board r) := by
  have hsd : st.selectedPos ≠ dst := by
    intro hh
    rw [hh, hq] at hp
    injection hp with hpq
    rw [hpq] at hqc
    exact hqc hcol
  cases hac : st.activeColor with
  | Black =>
      simp only [moverMods, hac] at hsn hna hne
      rw [hac] at hok
      simp only [resolveMove, takingDetect, hq, hp, hcol, hac, if_pos,
        pushTaken_board, pushTaken_selectedPos, pushTaken_activeColor,
        pushTaken_blackMods, pushTaken_whiteMods,
        preEffects, extinctionStep, hsn, hna, hne,
        commitStep, makeMoveE, hok, sniperRevert, postCommit, clearSel,
        Bool.false_eq_true, Bool.true_eq_false, if_false, if_true,
        Bool.not_true, Bool.not_false, Bool.and_true, Bool.true_and,
        Bool.and_false, Bool.false_and, true_and, and_true, false_and,
        and_false, ite_true, ite_false]
      refine ⟨_, rfl, ?_, ?_, rfl, ?_⟩
      · rw [lookupB_removeB_ne _ _ _ hsd, lookupB_insertB_self]
      · exact lookupB_removeB_self _ _
      · intro r hr1 hr2
        rw [lookupB_removeB_ne _ _ _ hr2, lookupB_insertB_ne _ _ _ _ hr1]
  | White =>
      simp only [moverMods, hac] at hsn hna hne
      rw [hac] at hok
      simp only [resolveMove, takingDetect, hq, hp, hcol, hac, if_pos,
        pushTaken_board, pushTaken_selectedPos, pushTaken_activeColor,
        pushTaken_blackMods, pushTaken_whiteMods,
        preEffects, extinctionStep, hsn, hna, hne,
        commitStep, makeMoveE, hok, sniperRevert, postCommit, clearSel,
        Bool.false_eq_true, Bool.true_eq_false, if_false, if_true,
        Bool.not_true, Bool.not_false, Bool.and_true, Bool.true_and,
        Bool.and_false, Bool.false_and, true_and, and_true, false_and,
        and_false, ite_true, ite_false]
      refine ⟨_, rfl, ?_, ?_, rfl, ?_⟩
      · rw [lookupB_removeB_ne _ _ _ hsd, lookupB_insertB_self]
      · exact lookupB_removeB_self _ _
      · intro r hr1 hr2
        rw [lookupB_removeB_ne _ _ _ hr2, lookupB_insertB_ne _ _ _ _ hr1]

/-- Witness for C10 at a concrete input: the engine rejects the snipe of the
    Black Queen, yet the Queen is copied onto the origin square, the
    destination is cleared and the turn stays with White. -/
theorem c10_sniper_revert_on_failed_commit_witness :
    memMod (moverMods stSnipe) (Mods.Sniper ⟨.Rook, .White⟩) = true ∧
    engFalse.ok stSnipe.board stSnipe.activeColor stSnipe.selectedPos (4, 4) =
      false ∧
    (∃ st2, resolveMove engFalse stSnipe (4, 4) = some st2 ∧
      lookupB st2.board stSnipe.selectedPos = some ⟨.Queen, .Black⟩ ∧
      lookupB st2.board (4, 4) = none ∧
      st2.activeColor = stSnipe.activeColor ∧
      (∀ r, r ≠ stSnipe.selectedPos → r ≠ (4, 4) →
        lookupB st2.board r = lookupB stSnipe.board r)) :=
  ⟨by decide, rfl,
   c10_sniper_revert_on_failed_commit engFalse stSnipe (4, 4) ⟨.Rook, .White⟩
     ⟨.Queen, .Black⟩ (by decide) (by decide) (by decide) (by decide)
     (by decide) (by decide) (by decide) (by decide)⟩
